import Mathlib

/-!
Verification development for the Component Verification Engine of
`mvi_component_integration.py` (class `MVIComponentIntegration`).

The Python functions are shallowly embedded as Lean functions:

* pixel coordinates, confidences and areas (Python floats) are modelled as
  rationals (`ℚ`);
* the running `best_score` float of `_find_matching_object`, which holds
  either an IoU value or a `1/(distance+1)` proximity score (`distance`
  being a Euclidean square root), is modelled by the symbolic type `Score`
  whose decidable comparison `Score.gtB` is certified against the
  real-number semantics (`Score.val`, using `Real.sqrt`) below;
* Python dictionaries for detections are modelled twice: as the typed
  record `Detection` (all required keys present and numeric), and as
  `RawDetection` with optional fields, where every dictionary access is an
  `Except`-returning lookup so that a missing key propagates exactly like
  a Python `KeyError`;
* debug `print` statements are not modelled except for the dictionary
  accesses they perform on detections, which can raise `KeyError` and are
  therefore kept in the raw model; the `notes` field of a match result
  (a debug string) and the image/annotation parameters are omitted.

String lowering models Python `str.lower` on the ASCII range, which covers
every class/component name occurring in the repository.
-/

namespace MVI

/-- Axis-aligned rectangle, the bbox dict with keys x, y, width, height. -/
structure Bbox where
  x : ℚ
  y : ℚ
  width : ℚ
  height : ℚ
  deriving Repr, DecidableEq

/-- Embeds `_calculate_center`: midpoint of a bbox. -/
def calculateCenter (b : Bbox) : ℚ × ℚ :=
  (b.x + b.width / 2, b.y + b.height / 2)

/-- Squared Euclidean distance between two points.  `_calculate_distance`
returns `sqrt` of this; comparisons involving the distance are performed on
this square, certified against `Real.sqrt` by the lemmas below. -/
def distSq (p1 p2 : ℚ × ℚ) : ℚ :=
  (p1.1 - p2.1) ^ 2 + (p1.2 - p2.2) ^ 2

/-- Embeds `_calculate_iou`: intersection over union of two bboxes, with the
early return `0.0` when the intersection is empty and the guard against a
non-positive union area. -/
def calculateIou (bbox1 bbox2 : Bbox) : ℚ :=
  let x1min := bbox1.x
  let y1min := bbox1.y
  let x1max := bbox1.x + bbox1.width
  let y1max := bbox1.y + bbox1.height
  let x2min := bbox2.x
  let y2min := bbox2.y
  let x2max := bbox2.x + bbox2.width
  let y2max := bbox2.y + bbox2.height
  let xInterMin := max x1min x2min
  let yInterMin := max y1min y2min
  let xInterMax := min x1max x2max
  let yInterMax := min y1max y2max
  if xInterMax ≤ xInterMin ∨ yInterMax ≤ yInterMin then 0
  else
    let interArea := (xInterMax - xInterMin) * (yInterMax - yInterMin)
    let unionArea := bbox1.width * bbox1.height + bbox2.width * bbox2.height - interArea
    if 0 < unionArea then interArea / unionArea else 0

/-- ASCII case folding of one character (Python `str.lower` on ASCII). -/
def lowerChar (c : Char) : Char :=
  if 65 ≤ c.toNat ∧ c.toNat ≤ 90 then Char.ofNat (c.toNat + 32) else c

/-- ASCII case folding of a string, as a character list. -/
def lowerStr (s : String) : List Char :=
  s.data.map lowerChar

/-- Decides whether the first list is a prefix of the second. -/
def isPrefixB : List Char → List Char → Bool
  | [], _ => true
  | _ :: _, [] => false
  | a :: as, b :: bs => a == b && isPrefixB as bs

/-- Decides whether `pat` occurs as a contiguous sublist, the Python
substring test `pat in s`. -/
def containsSub (pat : List Char) : List Char → Bool
  | [] => pat.isEmpty
  | c :: rest => isPrefixB pat (c :: rest) || containsSub pat rest

/-- Embeds the class-name test of `_find_matching_object` (case-insensitive
partial match): `expected_class in detected_class or detected_class in
expected_class or expected_class == detected_class`. -/
def classNamesMatch (expectedName detectedClass : String) : Bool :=
  let ec := lowerStr expectedName
  let dc := lowerStr detectedClass
  containsSub ec dc || containsSub dc ec || ec == dc

/-- One well-formed MVI detection dict: keys `class`, `confidence`, `bbox`.
The Python key `"class"` is the field `className`. -/
structure Detection where
  className : String
  confidence : ℚ
  bbox : Bbox
  deriving Repr, DecidableEq

/-- One expected-component record as returned by
`ComponentDefinitionManager.get_product_components`.  The `tolerance` field
is optional because `_find_matching_object` reads it with
`expected.get("tolerance", 50)`; likewise `position` is read with
`expected.get("position", "")`.  The `type` and `expected_features` entries
of the record are never read by the integration and are omitted. -/
structure ExpectedComponent where
  id : ℤ
  name : String
  position : Option String
  roi : Bbox
  tolerance : Option ℚ
  minConfidence : ℚ
  critical : Bool
  deriving Repr, DecidableEq

/-- Value of the Python float variable `best_score` in
`_find_matching_object`: either an IoU value, or the proximity score
`1/(distance+1)` represented by the squared distance `dsq`
(so its real value is `1/(Real.sqrt dsq + 1)`). -/
inductive Score where
  | iouScore (v : ℚ)
  | distScore (dsq : ℚ)
  deriving Repr, DecidableEq

/-- Decidable strict comparison of scores, `val t < val s` expressed by
rational inequalities (squaring out the square root). -/
def Score.gtB : Score → Score → Bool
  | .iouScore a, .iouScore b => decide (b < a)
  | .iouScore a, .distScore q => decide (0 < a ∧ (1 / a - 1 < 0 ∨ (1 / a - 1) ^ 2 < q))
  | .distScore q, .iouScore b => decide (b ≤ 0 ∨ (0 < 1 / b - 1 ∧ q < (1 / b - 1) ^ 2))
  | .distScore q1, .distScore q2 => decide (q1 < q2)

/-- Real value of a score: `iouScore v` is the float `v`; `distScore dsq`
is the float `1/(sqrt dsq + 1)`. -/
noncomputable def Score.val : Score → ℝ
  | .iouScore v => (v : ℝ)
  | .distScore dsq => 1 / (Real.sqrt (dsq : ℝ) + 1)

/-- Well-formedness: a proximity score always stores a (nonnegative)
squared distance. -/
def Score.wfo : Score → Prop
  | .iouScore _ => True
  | .distScore dsq => 0 ≤ dsq

/-- The IoU threshold `min_iou = 0.05` of `_find_matching_object`. -/
def minIou : ℚ := 0.05

/-- One iteration of the detection loop of `_find_matching_object`, for the
detection `p.2` at index `p.1`.  State: `(best_match, best_match_idx)`
paired with `best_score`.  Mirrors, in order: the `matched_indices` skip,
the class-name check, the IoU branch (with its `continue`), and the
center-distance fallback branch, where `distance <= tolerance` is the
squared comparison certified by `sqrt_le_iff_sq` below. -/
def findStep (e : ExpectedComponent) (matched : List ℕ)
    (st : Option (Detection × ℕ) × Score) (p : ℕ × Detection) :
    Option (Detection × ℕ) × Score :=
  if p.1 ∈ matched then st
  else if ¬ classNamesMatch e.name p.2.className then st
  else
    let iou := calculateIou e.roi p.2.bbox
    if minIou < iou then
      if Score.gtB (.iouScore iou) st.2 then (some (p.2, p.1), .iouScore iou) else st
    else
      let q := distSq (calculateCenter e.roi) (calculateCenter p.2.bbox)
      let tol := (e.tolerance).getD 50
      if 0 ≤ tol ∧ q ≤ tol ^ 2 then
        if Score.gtB (.distScore q) st.2 then (some (p.2, p.1), .distScore q) else st
      else st

/-- Full loop of `_find_matching_object`: fold of `findStep` over the
enumerated detections, starting from `(None, None)` and `best_score = 0.0`. -/
def findFold (e : ExpectedComponent) (detections : List Detection)
    (matched : List ℕ) : Option (Detection × ℕ) × Score :=
  detections.enum.foldl (findStep e matched) (none, .iouScore 0)

/-- Embeds `_find_matching_object`: returns the best match and its index,
or `none`. -/
def findMatchingObject (e : ExpectedComponent) (detections : List Detection)
    (matched : List ℕ) : Option (Detection × ℕ) :=
  (findFold e detections matched).1

/-- Status of one component match result. -/
inductive MatchStatus where
  | FOUND
  | MISSING
  deriving Repr, DecidableEq

/-- One element of the list returned by `_match_components` (the `notes`
debug string is omitted). -/
structure ComponentMatchResult where
  componentDefId : ℤ
  name : String
  position : String
  status : MatchStatus
  confidence : ℚ
  expectedBbox : Bbox
  detectedBbox : Option Bbox
  critical : Bool
  deriving Repr, DecidableEq

/-- Loop of `_match_components`, instrumented: each produced result is
paired with the index of the consumed detection (`some idx` exactly for the
`FOUND` branch, mirroring `matched_detection_indices.add(matched_idx)`). -/
def matchComponentsAux (ds : List Detection) :
    List ExpectedComponent → List ℕ → List (ComponentMatchResult × Option ℕ)
  | [], _ => []
  | e :: rest, matched =>
    match findMatchingObject e ds matched with
    | some (d, idx) =>
      (⟨e.id, e.name, (e.position).getD "", .FOUND, d.confidence, e.roi,
          some d.bbox, e.critical⟩, some idx)
        :: matchComponentsAux ds rest (idx :: matched)
    | none =>
      (⟨e.id, e.name, (e.position).getD "", .MISSING, 0, e.roi,
          none, e.critical⟩, none)
        :: matchComponentsAux ds rest matched

/-- Embeds `_match_components`: the per-expected-component result list. -/
def matchComponents (expectedComponents : List ExpectedComponent)
    (mviDetections : List Detection) : List ComponentMatchResult :=
  (matchComponentsAux mviDetections expectedComponents []).map Prod.fst

/-- Verdict status of `_analyze_results` / `process_mvi_result`. -/
inductive VerdictStatus where
  | PASS
  | FAIL
  | ERROR
  deriving Repr, DecidableEq

/-- The dict returned by `_analyze_results`. -/
structure Analysis where
  status : VerdictStatus
  reason : String
  foundCount : ℕ
  totalCount : ℕ
  foundPercentage : ℚ
  missingComponents : List String
  missingPositions : List String
  deriving Repr, DecidableEq

/-- Embeds `_analyze_results`. -/
def analyzeResults (matchingResults : List ComponentMatchResult)
    (expectedComponents : List ExpectedComponent) : Analysis :=
  let foundCount := (matchingResults.filter (fun r => r.status = .FOUND)).length
  let totalCount := expectedComponents.length
  let foundPercentage : ℚ :=
    if 0 < totalCount then (foundCount : ℚ) / (totalCount : ℚ) * 100 else 0
  let missingComponents :=
    (matchingResults.filter (fun r => r.status = .MISSING)).map (fun r => r.name)
  let missingPositions :=
    (matchingResults.filter (fun r => r.status = .MISSING)).map
      (fun r => if r.position ≠ "" then r.name ++ " (" ++ r.position ++ ")" else r.name)
  let missingCritical :=
    (matchingResults.filter (fun r => r.status = .MISSING ∧ r.critical)).map
      (fun r => r.name)
  if missingCritical ≠ [] then
    ⟨.FAIL, "Missing critical components: " ++ String.intercalate ", " missingCritical,
      foundCount, totalCount, foundPercentage, missingComponents, missingPositions⟩
  else if foundCount = totalCount then
    ⟨.PASS, "All components found (" ++ toString foundCount ++ "/" ++
        toString totalCount ++ ")",
      foundCount, totalCount, foundPercentage, missingComponents, missingPositions⟩
  else
    ⟨.FAIL, "Found only " ++ toString foundCount ++ "/" ++ toString totalCount ++
        " components",
      foundCount, totalCount, foundPercentage, missingComponents, missingPositions⟩

/-- The dict returned by `process_mvi_result`, minus the image fields. -/
structure ProcessResult where
  status : VerdictStatus
  reason : String
  found : ℕ
  total : ℕ
  foundPercentage : ℚ
  missingComponents : List String
  missingPositions : List String
  componentResults : List ComponentMatchResult
  deriving Repr, DecidableEq

/-- Embeds `process_mvi_result`.  The `expectedComponents` argument stands
for `comp_manager.get_product_components(product_id)`; the guard is the
Python truthiness test `if not expected_components`. -/
def processMviResult (expectedComponents : List ExpectedComponent)
    (mviDetections : List Detection) : ProcessResult :=
  if expectedComponents.isEmpty then
    ⟨.ERROR, "No component definitions found for this product",
      0, 0, 0, [], [], []⟩
  else
    let matchingResults := matchComponents expectedComponents mviDetections
    let analysis := analyzeResults matchingResults expectedComponents
    ⟨analysis.status, analysis.reason, analysis.foundCount, analysis.totalCount,
      analysis.foundPercentage, analysis.missingComponents,
      analysis.missingPositions, matchingResults⟩

/-- Bbox dict with possibly missing keys. -/
structure RawBbox where
  x? : Option ℚ
  y? : Option ℚ
  width? : Option ℚ
  height? : Option ℚ
  deriving Repr, DecidableEq

/-- Detection dict with possibly missing keys (`class`, `confidence`,
`bbox`). -/
structure RawDetection where
  className? : Option String
  confidence? : Option ℚ
  bbox? : Option RawBbox
  deriving Repr, DecidableEq

/-- Python dict access `d[key]`: a missing key raises `KeyError`. -/
def dictGet {α : Type} (entry : Option α) (key : String) : Except String α :=
  match entry with
  | some v => Except.ok v
  | none => Except.error ("KeyError: " ++ key)

/-- Reads the four bbox keys in the access order of `_calculate_iou` and
`_calculate_center`. -/
def getRawBbox (rb : RawBbox) : Except String Bbox := do
  let x ← dictGet rb.x? "x"
  let y ← dictGet rb.y? "y"
  let w ← dictGet rb.width? "width"
  let h ← dictGet rb.height? "height"
  pure ⟨x, y, w, h⟩

/-- One iteration of the detection loop of `_find_matching_object` over a
raw detection dict.  Every Python dictionary access is explicit, including
the ones performed by the debug `print` calls (which read `class` for a
skipped detection, and `class` and `confidence` before the class test), so
a missing key surfaces as the `KeyError` the source would raise. -/
def rawFindStep (e : ExpectedComponent) (matched : List ℕ)
    (st : Option (Detection × ℕ) × Score) (p : ℕ × RawDetection) :
    Except String (Option (Detection × ℕ) × Score) := do
  if p.1 ∈ matched then
    let _ ← dictGet p.2.className? "class"
    pure st
  else
    let cls ← dictGet p.2.className? "class"
    let conf ← dictGet p.2.confidence? "confidence"
    if ¬ classNamesMatch e.name cls then pure st
    else
      let rb ← dictGet p.2.bbox? "bbox"
      let bb ← getRawBbox rb
      let iou := calculateIou e.roi bb
      if minIou < iou then
        pure (if Score.gtB (.iouScore iou) st.2 then
          (some (⟨cls, conf, bb⟩, p.1), .iouScore iou) else st)
      else
        let q := distSq (calculateCenter e.roi) (calculateCenter bb)
        let tol := (e.tolerance).getD 50
        if 0 ≤ tol ∧ q ≤ tol ^ 2 then
          pure (if Score.gtB (.distScore q) st.2 then
            (some (⟨cls, conf, bb⟩, p.1), .distScore q) else st)
        else pure st

/-- Embeds `_find_matching_object` over raw detection dicts; an error value
is a Python exception escaping the call. -/
def rawFindMatchingObject (e : ExpectedComponent) (ds : List RawDetection)
    (matched : List ℕ) : Except String (Option (Detection × ℕ)) := do
  let st ← ds.enum.foldlM (rawFindStep e matched) (none, .iouScore 0)
  pure st.1

/-- Loop of `_match_components` over raw detection dicts. -/
def rawMatchComponentsAux (ds : List RawDetection) :
    List ExpectedComponent → List ℕ → Except String (List ComponentMatchResult)
  | [], _ => pure []
  | e :: rest, matched => do
    match ← rawFindMatchingObject e ds matched with
    | some (d, idx) =>
      let tail ← rawMatchComponentsAux ds rest (idx :: matched)
      pure (⟨e.id, e.name, (e.position).getD "", .FOUND, d.confidence, e.roi,
        some d.bbox, e.critical⟩ :: tail)
    | none =>
      let tail ← rawMatchComponentsAux ds rest matched
      pure (⟨e.id, e.name, (e.position).getD "", .MISSING, 0, e.roi,
        none, e.critical⟩ :: tail)

/-- Embeds `_match_components` over raw detection dicts: either the result
list, or the exception the source raises. -/
def rawMatchComponents (expectedComponents : List ExpectedComponent)
    (ds : List RawDetection) : Except String (List ComponentMatchResult) :=
  rawMatchComponentsAux ds expectedComponents []

/-- View of a well-formed detection as a raw dict with all keys present. -/
def toRawDetection (d : Detection) : RawDetection :=
  ⟨some d.className, some d.confidence,
    some ⟨some d.bbox.x, some d.bbox.y, some d.bbox.width, some d.bbox.height⟩⟩

/-- The score `_find_matching_object` assigns to one candidate detection,
if any: its IoU when that clears the threshold, otherwise its proximity
score when the center distance is within tolerance. -/
def candidateScore (e : ExpectedComponent) (d : Detection) : Option Score :=
  if ¬ classNamesMatch e.name d.className then none
  else
    let iou := calculateIou e.roi d.bbox
    if minIou < iou then some (.iouScore iou)
    else
      let q := distSq (calculateCenter e.roi) (calculateCenter d.bbox)
      let tol := (e.tolerance).getD 50
      if 0 ≤ tol ∧ q ≤ tol ^ 2 then some (.distScore q) else none

/-- States reached by the loop of `_find_matching_object`: the score is
well-formed, an empty best match means the initial score `0.0`, and a
non-empty best match is an unconsumed enumerated detection whose candidate
score is the current best score. -/
def FindInv (e : ExpectedComponent) (matched : List ℕ) (l : List (ℕ × Detection))
    (st : Option (Detection × ℕ) × Score) : Prop :=
  st.2.wfo ∧
    (st.1 = none → st.2 = .iouScore 0) ∧
    (∀ d i, st.1 = some (d, i) →
      (i, d) ∈ l ∧ i ∉ matched ∧ candidateScore e d = some st.2)

/-- Two expected-component records that agree on everything except the
`min_confidence` field. -/
def sameExceptMinConf (e1 e2 : ExpectedComponent) : Prop :=
  e2 = { e1 with minConfidence := e2.minConfidence }

/-! Certification of the rational encodings of the square-root comparisons
performed by the source on floats. -/

/-- The squared form of `distance <= tolerance` used in `findStep` is
equivalent to the source's comparison of the Euclidean distance itself. -/
theorem sqrt_le_iff_sq {q t : ℚ} (hq : 0 ≤ q) :
    Real.sqrt (q : ℝ) ≤ (t : ℝ) ↔ (0 ≤ t ∧ q ≤ t ^ 2) := by
  constructor
  · intro h
    have h0 : (0 : ℝ) ≤ (t : ℝ) := le_trans (Real.sqrt_nonneg _) h
    have ht : 0 ≤ t := by exact_mod_cast h0
    refine ⟨ht, ?_⟩
    have hqr : (0 : ℝ) ≤ (q : ℝ) := by exact_mod_cast hq
    have hsq := Real.sq_sqrt hqr
    have : ((q : ℝ)) ≤ (t : ℝ) ^ 2 := by nlinarith [Real.sqrt_nonneg ((q : ℝ))]
    exact_mod_cast this
  · rintro ⟨ht, hle⟩
    have htr : (0 : ℝ) ≤ (t : ℝ) := by exact_mod_cast ht
    have : Real.sqrt (q : ℝ) ≤ Real.sqrt ((t : ℝ) ^ 2) := by
      apply Real.sqrt_le_sqrt
      exact_mod_cast hle
    rwa [Real.sqrt_sq htr] at this

/-- The decidable comparison `Score.gtB` agrees with the strict order on
the real values of the scores. -/
theorem gtB_iff_val {s t : Score} (hs : s.wfo) (ht : t.wfo) :
    s.gtB t = true ↔ t.val < s.val := by
  cases s with
  | iouScore a =>
    cases t with
    | iouScore b =>
      simp only [Score.gtB, Score.val, decide_eq_true_eq, Rat.cast_lt]
    | distScore q =>
      simp only [Score.gtB, Score.val, decide_eq_true_eq]
      have hq : 0 ≤ q := ht
      have hqr : (0 : ℝ) ≤ (q : ℝ) := by exact_mod_cast hq
      have hs0 : (0 : ℝ) ≤ Real.sqrt (q : ℝ) := Real.sqrt_nonneg _
      have hs1 : (0 : ℝ) < Real.sqrt (q : ℝ) + 1 := by linarith
      have hsq := Real.sq_sqrt hqr
      rw [div_lt_iff hs1]
      constructor
      · rintro ⟨ha, hc⟩
        have har : (0 : ℝ) < (a : ℝ) := by exact_mod_cast ha
        rcases hc with hc | hc
        · have hcr : (1 : ℝ) / (a : ℝ) - 1 < 0 := by exact_mod_cast hc
          have h1 : (1 : ℝ) / (a : ℝ) < 1 := by linarith
          have h2 : (1 : ℝ) < (a : ℝ) := (div_lt_one har).mp h1
          nlinarith [mul_nonneg har.le hs0]
        · have hcr : ((1 : ℝ) / (a : ℝ) - 1) ^ 2 < (q : ℝ) := by exact_mod_cast hc
          rcases lt_or_le ((1 : ℝ) / (a : ℝ) - 1) 0 with hneg | hpos
          · have h1 : (1 : ℝ) / (a : ℝ) < 1 := by linarith
            have h2 : (1 : ℝ) < (a : ℝ) := (div_lt_one har).mp h1
            nlinarith [mul_nonneg har.le hs0]
          · have hlt : (1 : ℝ) / (a : ℝ) - 1 < Real.sqrt (q : ℝ) := by
              by_contra hle
              push_neg at hle
              have := mul_self_le_mul_self hs0 hle
              nlinarith
            have h3 : (1 : ℝ) / (a : ℝ) < Real.sqrt (q : ℝ) + 1 := by linarith
            have h4 := mul_lt_mul_of_pos_left h3 har
            rwa [mul_one_div_cancel (ne_of_gt har)] at h4
      · intro h
        have har : (0 : ℝ) < (a : ℝ) := by
          by_contra hle
          push_neg at hle
          nlinarith [mul_nonpos_iff.mpr (Or.inr ⟨hle, hs1.le⟩)]
        have ha : 0 < a := by exact_mod_cast har
        refine ⟨ha, ?_⟩
        have h3 : (1 : ℝ) / (a : ℝ) < Real.sqrt (q : ℝ) + 1 := by
          rw [div_lt_iff har]
          nlinarith
        have hlt : (1 : ℝ) / (a : ℝ) - 1 < Real.sqrt (q : ℝ) := by linarith
        rcases lt_or_le ((1 : ℚ) / a - 1) 0 with hneg | hpos
        · exact Or.inl hneg
        · right
          have hposr : (0 : ℝ) ≤ (1 : ℝ) / (a : ℝ) - 1 := by exact_mod_cast hpos
          have hsq2 : ((1 : ℝ) / (a : ℝ) - 1) ^ 2 < (q : ℝ) := by
            nlinarith [mul_self_lt_mul_self hposr hlt]
          exact_mod_cast hsq2
  | distScore q =>
    cases t with
    | iouScore b =>
      simp only [Score.gtB, Score.val, decide_eq_true_eq]
      have hq : 0 ≤ q := hs
      have hqr : (0 : ℝ) ≤ (q : ℝ) := by exact_mod_cast hq
      have hs0 : (0 : ℝ) ≤ Real.sqrt (q : ℝ) := Real.sqrt_nonneg _
      have hs1 : (0 : ℝ) < Real.sqrt (q : ℝ) + 1 := by linarith
      have hsq := Real.sq_sqrt hqr
      rw [lt_div_iff hs1]
      constructor
      · rintro (hb | ⟨hc0, hc⟩)
        · have hbr : (b : ℝ) ≤ 0 := by exact_mod_cast hb
          nlinarith [mul_nonpos_iff.mpr (Or.inr ⟨hbr, hs1.le⟩)]
        · have hb0 : 0 < b := by
            rcases lt_trichotomy b 0 with hbneg | hb0 | hb0
            · exfalso
              have : (1 : ℚ) / b < 0 := div_neg_of_pos_of_neg one_pos hbneg
              linarith
            · exfalso
              rw [hb0] at hc0
              norm_num at hc0
            · exact hb0
          have hbr : (0 : ℝ) < (b : ℝ) := by exact_mod_cast hb0
          have hc0r : (0 : ℝ) < (1 : ℝ) / (b : ℝ) - 1 := by exact_mod_cast hc0
          have hcr : (q : ℝ) < ((1 : ℝ) / (b : ℝ) - 1) ^ 2 := by exact_mod_cast hc
          have hlt : Real.sqrt (q : ℝ) < (1 : ℝ) / (b : ℝ) - 1 := by
            by_contra hle
            push_neg at hle
            have := mul_self_le_mul_self hc0r.le hle
            nlinarith
          have h2 : Real.sqrt (q : ℝ) + 1 < (1 : ℝ) / (b : ℝ) := by linarith
          have h4 := mul_lt_mul_of_pos_left h2 hbr
          rwa [mul_one_div_cancel (ne_of_gt hbr)] at h4
      · intro h
        rcases le_or_lt b 0 with hb | hb
        · exact Or.inl hb
        · right
          have hbr : (0 : ℝ) < (b : ℝ) := by exact_mod_cast hb
          have h2 : Real.sqrt (q : ℝ) + 1 < (1 : ℝ) / (b : ℝ) := by
            rw [lt_div_iff hbr]
            nlinarith
          have hlt : Real.sqrt (q : ℝ) < (1 : ℝ) / (b : ℝ) - 1 := by linarith
          have hc0r : (0 : ℝ) < (1 : ℝ) / (b : ℝ) - 1 := lt_of_le_of_lt hs0 hlt
          refine ⟨by exact_mod_cast hc0r, ?_⟩
          have hq2 : (q : ℝ) < ((1 : ℝ) / (b : ℝ) - 1) ^ 2 := by
            nlinarith [mul_self_lt_mul_self hs0 hlt]
          exact_mod_cast hq2
    | distScore q2 =>
      simp only [Score.gtB, Score.val, decide_eq_true_eq]
      have hq1 : 0 ≤ q := hs
      have hq2 : 0 ≤ q2 := ht
      have hq1r : (0 : ℝ) ≤ (q : ℝ) := by exact_mod_cast hq1
      have hq2r : (0 : ℝ) ≤ (q2 : ℝ) := by exact_mod_cast hq2
      have h10 : (0 : ℝ) < Real.sqrt (q : ℝ) + 1 := by
        have := Real.sqrt_nonneg ((q : ℝ)); linarith
      have h20 : (0 : ℝ) < Real.sqrt (q2 : ℝ) + 1 := by
        have := Real.sqrt_nonneg ((q2 : ℝ)); linarith
      rw [one_div_lt_one_div h20 h10]
      constructor
      · intro h
        have : Real.sqrt (q : ℝ) < Real.sqrt (q2 : ℝ) :=
          Real.sqrt_lt_sqrt hq1r (by exact_mod_cast h)
        linarith
      · intro h
        have hlt : Real.sqrt (q : ℝ) < Real.sqrt (q2 : ℝ) := by linarith
        by_contra hle
        push_neg at hle
        have : Real.sqrt (q2 : ℝ) ≤ Real.sqrt (q : ℝ) :=
          Real.sqrt_le_sqrt (by exact_mod_cast hle)
        linarith

/-! Helper lemmas about the matcher. -/

theorem findStep_eq_cand (e : ExpectedComponent) (matched : List ℕ)
    (st : Option (Detection × ℕ) × Score) (p : ℕ × Detection) :
    findStep e matched st p =
      if p.1 ∈ matched then st
      else
        match candidateScore e p.2 with
        | none => st
        | some s => if s.gtB st.2 then (some (p.2, p.1), s) else st := by
  unfold findStep candidateScore
  by_cases h1 : p.1 ∈ matched
  · simp [h1]
  · by_cases h2 : classNamesMatch e.name p.2.className
    · by_cases h3 : minIou < calculateIou e.roi p.2.bbox
      · simp [h1, h2, h3]
      · by_cases h4 : 0 ≤ (e.tolerance).getD 50 ∧
            distSq (calculateCenter e.roi) (calculateCenter p.2.bbox) ≤
              ((e.tolerance).getD 50) ^ 2
        · simp [h1, h2, h3, h4]
        · simp [h1, h2, h3, h4]
    · simp [h1, h2]

theorem distSq_nonneg (p1 p2 : ℚ × ℚ) : 0 ≤ distSq p1 p2 := by
  unfold distSq
  positivity

theorem candidateScore_wfo (e : ExpectedComponent) (d : Detection) {s : Score}
    (h : candidateScore e d = some s) : s.wfo := by
  unfold candidateScore at h
  split at h
  · exact absurd h (by simp)
  · dsimp only at h
    split at h
    · cases Option.some.inj h
      trivial
    · split at h
      · cases Option.some.inj h
        exact distSq_nonneg _ _
      · exact absurd h (by simp)

theorem findStep_inv {e : ExpectedComponent} {matched : List ℕ}
    {l : List (ℕ × Detection)} {st : Option (Detection × ℕ) × Score}
    (hst : FindInv e matched l st) {p : ℕ × Detection} (hp : p ∈ l) :
    FindInv e matched l (findStep e matched st p) := by
  obtain ⟨hwf, hnone, hsome⟩ := hst
  rw [findStep_eq_cand]
  by_cases h1 : p.1 ∈ matched
  · simpa [h1] using ⟨hwf, hnone, hsome⟩
  · simp only [h1, if_false]
    cases hcand : candidateScore e p.2 with
    | none => exact ⟨hwf, hnone, hsome⟩
    | some s =>
      by_cases hgt : s.gtB st.2
      · simp only [hgt, if_true]
        refine ⟨candidateScore_wfo e p.2 hcand, by simp, ?_⟩
        intro d i hdi
        cases Option.some.inj hdi
        exact ⟨hp, h1, hcand⟩
      · simpa [hgt] using ⟨hwf, hnone, hsome⟩

theorem findFold_inv (e : ExpectedComponent) (ds : List Detection)
    (matched : List ℕ) :
    FindInv e matched ds.enum (findFold e ds matched) := by
  unfold findFold
  apply List.foldlRecOn
  · exact ⟨trivial, fun _ => rfl, fun d i h => by simp at h⟩
  · intro st hst p hp
    exact findStep_inv hst hp

/-- The loop of `_find_matching_object` never lowers `best_score`. -/
theorem findStep_mono {e : ExpectedComponent} {matched : List ℕ}
    {st : Option (Detection × ℕ) × Score} (hwf : st.2.wfo)
    (p : ℕ × Detection) :
    (findStep e matched st p).2.wfo ∧
      Score.val st.2 ≤ Score.val (findStep e matched st p).2 := by
  rw [findStep_eq_cand]
  by_cases h1 : p.1 ∈ matched
  · simp only [h1, if_true]
    exact ⟨hwf, le_refl _⟩
  · simp only [h1, if_false]
    cases hcand : candidateScore e p.2 with
    | none => exact ⟨hwf, le_refl _⟩
    | some s =>
      by_cases hgt : s.gtB st.2
      · simp only [hgt, if_true]
        have hswf : s.wfo := candidateScore_wfo e p.2 hcand
        exact ⟨hswf, le_of_lt ((gtB_iff_val hswf hwf).mp hgt)⟩
      · simp only [hgt, if_false]
        exact ⟨hwf, le_refl _⟩

theorem foldl_find_mono (e : ExpectedComponent) (matched : List ℕ)
    (l : List (ℕ × Detection)) (st : Option (Detection × ℕ) × Score)
    (hwf : st.2.wfo) :
    (l.foldl (findStep e matched) st).2.wfo ∧
      Score.val st.2 ≤ Score.val (l.foldl (findStep e matched) st).2 := by
  induction l generalizing st with
  | nil => exact ⟨hwf, le_refl _⟩
  | cons p rest ih =>
    rw [List.foldl_cons]
    obtain ⟨hwf2, hle⟩ := findStep_mono hwf p
    obtain ⟨hwf3, hle2⟩ := ih _ hwf2
    exact ⟨hwf3, le_trans hle hle2⟩

/-- Once the loop has a best match, it keeps one. -/
theorem findStep_keeps_some {e : ExpectedComponent} {matched : List ℕ}
    {st : Option (Detection × ℕ) × Score} (h : st.1 ≠ none)
    (p : ℕ × Detection) : (findStep e matched st p).1 ≠ none := by
  rw [findStep_eq_cand]
  by_cases h1 : p.1 ∈ matched
  · simpa [h1] using h
  · simp only [h1, if_false]
    cases hcand : candidateScore e p.2 with
    | none => exact h
    | some s =>
      by_cases hgt : s.gtB st.2
      · simp [hgt]
      · simpa [hgt] using h

theorem foldl_find_keeps_some (e : ExpectedComponent) (matched : List ℕ)
    (l : List (ℕ × Detection)) (st : Option (Detection × ℕ) × Score)
    (h : st.1 ≠ none) : (l.foldl (findStep e matched) st).1 ≠ none := by
  induction l generalizing st with
  | nil => exact h
  | cons p rest ih =>
    rw [List.foldl_cons]
    exact ih _ (findStep_keeps_some h p)

/-- What `_find_matching_object` returns is an unconsumed detection of the
input list together with its index, and the final `best_score` is exactly
that candidate's score. -/
theorem findMatchingObject_sound {e : ExpectedComponent} {ds : List Detection}
    {matched : List ℕ} {d : Detection} {i : ℕ}
    (h : findMatchingObject e ds matched = some (d, i)) :
    i ∉ matched ∧ i < ds.length ∧ (∀ hi : i < ds.length, d = ds.get ⟨i, hi⟩) ∧
      candidateScore e d = some (findFold e ds matched).2 := by
  have hinv := findFold_inv e ds matched
  obtain ⟨hwf, hnone, hsome⟩ := hinv
  obtain ⟨hmem, hnotm, hcand⟩ := hsome d i h
  obtain ⟨hlen, hget⟩ := List.mem_enum hmem
  refine ⟨hnotm, hlen, ?_, hcand⟩
  intro hi
  simpa using hget

theorem matchComponentsAux_length (ds : List Detection)
    (es : List ExpectedComponent) : ∀ m : List ℕ,
    (matchComponentsAux ds es m).length = es.length := by
  induction es with
  | nil => intro m; rfl
  | cons e rest ih =>
    intro m
    rw [matchComponentsAux]
    cases h : findMatchingObject e ds m with
    | some di =>
      obtain ⟨d, idx⟩ := di
      simp [ih]
    | none => simp [ih]

theorem matchComponents_length (es : List ExpectedComponent)
    (ds : List Detection) : (matchComponents es ds).length = es.length := by
  simp [matchComponents, matchComponentsAux_length]

/-- Positional correspondence between the result list of
`_match_components` and the expected-component list: the i-th result
carries the id, name, position, roi and critical flag of the i-th
expected component. -/
theorem matchComponentsAux_get? (ds : List Detection) :
    ∀ (es : List ExpectedComponent) (m : List ℕ) (i : ℕ),
      ((matchComponentsAux ds es m).get? i).map
          (fun p => (p.1.componentDefId, p.1.name, p.1.position,
            p.1.expectedBbox, p.1.critical)) =
        (es.get? i).map
          (fun e => (e.id, e.name, (e.position).getD "", e.roi, e.critical)) := by
  intro es
  induction es with
  | nil => intro m i; simp [matchComponentsAux]
  | cons e rest ih =>
    intro m i
    rw [matchComponentsAux]
    cases h : findMatchingObject e ds m with
    | some di =>
      obtain ⟨d, idx⟩ := di
      cases i with
      | zero => rfl
      | succ i => simpa using ih (idx :: m) i
    | none =>
      cases i with
      | zero => rfl
      | succ i => simpa using ih m i

/-- Shape of each result of `_match_components`: `FOUND` exactly when a
detection index was consumed; a `FOUND` result copies the matched
detection's confidence and bbox; a `MISSING` result has confidence `0.0`
and no detected bbox. -/
theorem matchComponentsAux_mem (ds : List Detection) :
    ∀ (es : List ExpectedComponent) (m : List ℕ)
      (p : ComponentMatchResult × Option ℕ), p ∈ matchComponentsAux ds es m →
      (p.1.status = .FOUND ↔ p.2.isSome) ∧
      (p.1.status = .FOUND →
        ∃ d : Detection, d ∈ ds ∧ p.1.detectedBbox = some d.bbox ∧
          p.1.confidence = d.confidence) ∧
      (p.1.status = .MISSING → p.1.confidence = 0 ∧ p.1.detectedBbox = none) := by
  intro es
  induction es with
  | nil => intro m p hp; simp [matchComponentsAux] at hp
  | cons e rest ih =>
    intro m p hp
    rw [matchComponentsAux] at hp
    cases h : findMatchingObject e ds m with
    | some di =>
      obtain ⟨d, idx⟩ := di
      rw [h] at hp
      rcases List.mem_cons.mp hp with rfl | hp2
      · refine ⟨by simp, ?_, by intro hmiss; simp at hmiss⟩
        intro _
        obtain ⟨-, hlen, hget, -⟩ := findMatchingObject_sound h
        have hd : d ∈ ds := by
          rw [hget hlen]
          exact List.get_mem ds idx hlen
        exact ⟨d, hd, rfl, rfl⟩
      · exact ih (idx :: m) p hp2
    | none =>
      rw [h] at hp
      rcases List.mem_cons.mp hp with rfl | hp2
      · exact ⟨by simp, by intro hf; simp at hf, fun _ => ⟨rfl, rfl⟩⟩
      · exact ih m p hp2

/-- The consumed detection indices recorded along the loop of
`_match_components` avoid the incoming `matched_detection_indices` set and
are pairwise distinct. -/
theorem matchComponentsAux_indices (ds : List Detection) :
    ∀ (es : List ExpectedComponent) (m : List ℕ),
      (∀ j ∈ (matchComponentsAux ds es m).filterMap Prod.snd, j ∉ m) ∧
        ((matchComponentsAux ds es m).filterMap Prod.snd).Nodup := by
  intro es
  induction es with
  | nil => intro m; simp [matchComponentsAux]
  | cons e rest ih =>
    intro m
    rw [matchComponentsAux]
    cases h : findMatchingObject e ds m with
    | none =>
      simp only [List.filterMap_cons]
      simpa using ih m
    | some di =>
      obtain ⟨d, idx⟩ := di
      have hidx : idx ∉ m := (findMatchingObject_sound h).1
      obtain ⟨h1, h2⟩ := ih (idx :: m)
      simp only [List.filterMap_cons]
      constructor
      · intro j hj
        rcases List.mem_cons.mp hj with rfl | hj2
        · exact hidx
        · intro hjm
          exact h1 j hj2 (List.mem_cons_of_mem _ hjm)
      · exact List.nodup_cons.mpr
          ⟨fun hmem => h1 idx hmem (List.mem_cons_self _ _), h2⟩

theorem findStep_none_zero {e : ExpectedComponent} {m : List ℕ}
    {st : Option (Detection × ℕ) × Score} (h : st.1 = none → st.2 = .iouScore 0)
    (p : ℕ × Detection) :
    (findStep e m st p).1 = none → (findStep e m st p).2 = .iouScore 0 := by
  rw [findStep_eq_cand]
  by_cases h1 : p.1 ∈ m
  · simpa [h1] using h
  · simp only [h1, if_false]
    cases hc : candidateScore e p.2 with
    | none => exact h
    | some s =>
      by_cases hgt : s.gtB st.2
      · simp [hgt]
      · simpa [hgt] using h

theorem foldl_find_none_zero (e : ExpectedComponent) (m : List ℕ)
    (l : List (ℕ × Detection)) (st : Option (Detection × ℕ) × Score)
    (h : st.1 = none → st.2 = .iouScore 0) :
    (l.foldl (findStep e m) st).1 = none →
      (l.foldl (findStep e m) st).2 = .iouScore 0 := by
  induction l generalizing st with
  | nil => exact h
  | cons p rest ih =>
    rw [List.foldl_cons]
    exact ih _ (findStep_none_zero h p)

/-- Every candidate score beats the initial `best_score = 0.0`. -/
theorem candidateScore_gt_zero {e : ExpectedComponent} {d : Detection}
    {s : Score} (hcand : candidateScore e d = some s) :
    s.gtB (.iouScore 0) = true := by
  unfold candidateScore at hcand
  split at hcand
  · simp at hcand
  · dsimp only at hcand
    split at hcand
    · rename_i hiou
      cases Option.some.inj hcand
      simp only [Score.gtB, decide_eq_true_eq]
      have h0 : (0 : ℚ) < minIou := by norm_num [minIou]
      linarith
    · split at hcand
      · cases Option.some.inj hcand
        simp only [Score.gtB, decide_eq_true_eq]
        exact Or.inl le_rfl
      · simp at hcand

/-- Any unconsumed, class-matching candidate that qualifies by either
method bounds the final `best_score` from below, and forces
`_find_matching_object` to return a match. -/
theorem findFold_candidate (e : ExpectedComponent) (ds : List Detection)
    (matched : List ℕ) {i : ℕ} {d : Detection} {s : Score}
    (hmem : (i, d) ∈ ds.enum) (hnotm : i ∉ matched)
    (hcand : candidateScore e d = some s) :
    Score.val s ≤ Score.val (findFold e ds matched).2 ∧
      (findFold e ds matched).1 ≠ none := by
  obtain ⟨l1, l2, hsplit⟩ := List.append_of_mem hmem
  have hswf : s.wfo := candidateScore_wfo e d hcand
  unfold findFold
  rw [hsplit, List.foldl_append, List.foldl_cons]
  have hwf1 : (l1.foldl (findStep e matched) (none, .iouScore 0)).2.wfo :=
    (foldl_find_mono e matched l1 (none, .iouScore 0) trivial).1
  have hnz1 : (l1.foldl (findStep e matched) (none, .iouScore 0)).1 = none →
      (l1.foldl (findStep e matched) (none, .iouScore 0)).2 = .iouScore 0 :=
    foldl_find_none_zero e matched l1 (none, .iouScore 0) (fun _ => rfl)
  set st1 := l1.foldl (findStep e matched) (none, .iouScore 0) with hst1
  have hstep : Score.val s ≤ Score.val (findStep e matched st1 (i, d)).2 ∧
      (findStep e matched st1 (i, d)).1 ≠ none := by
    rw [findStep_eq_cand]
    simp only [hnotm, if_false]
    rw [show candidateScore e (i, d).2 = some s from hcand]
    by_cases hgt : s.gtB st1.2
    · simp only [hgt, if_true]
      exact ⟨le_refl _, by simp⟩
    · simp only [hgt, if_false]
      have hle : Score.val s ≤ Score.val st1.2 := by
        by_contra hlt
        push_neg at hlt
        exact hgt ((gtB_iff_val hswf hwf1).mpr hlt)
      refine ⟨hle, ?_⟩
      intro hnone
      have h0 : st1.2 = .iouScore 0 := hnz1 hnone
      rw [h0] at hgt
      exact hgt (candidateScore_gt_zero hcand)
  obtain ⟨hle2, hsome2⟩ := hstep
  have hwf2 : (findStep e matched st1 (i, d)).2.wfo := (findStep_mono hwf1 (i, d)).1
  have hmono := foldl_find_mono e matched l2 (findStep e matched st1 (i, d)) hwf2
  exact ⟨le_trans hle2 hmono.2,
    foldl_find_keeps_some e matched l2 _ hsome2⟩

theorem matchComponents_get? (es : List ExpectedComponent)
    (ds : List Detection) (i : ℕ) :
    ((matchComponents es ds).get? i).map
        (fun r => (r.componentDefId, r.name, r.position,
          r.expectedBbox, r.critical)) =
      (es.get? i).map
        (fun e => (e.id, e.name, (e.position).getD "", e.roi, e.critical)) := by
  unfold matchComponents
  rw [List.get?_map, Option.map_map]
  exact matchComponentsAux_get? ds es [] i

theorem matchComponents_get_fields (es : List ExpectedComponent)
    (ds : List Detection) (i : ℕ)
    (hi2 : i < (matchComponents es ds).length) (hi : i < es.length) :
    ((matchComponents es ds).get ⟨i, hi2⟩).componentDefId = (es.get ⟨i, hi⟩).id ∧
      ((matchComponents es ds).get ⟨i, hi2⟩).name = (es.get ⟨i, hi⟩).name ∧
      ((matchComponents es ds).get ⟨i, hi2⟩).position =
        ((es.get ⟨i, hi⟩).position).getD "" ∧
      ((matchComponents es ds).get ⟨i, hi2⟩).expectedBbox = (es.get ⟨i, hi⟩).roi ∧
      ((matchComponents es ds).get ⟨i, hi2⟩).critical = (es.get ⟨i, hi⟩).critical := by
  have h := matchComponents_get? es ds i
  rw [List.get?_eq_get hi2, List.get?_eq_get hi] at h
  simp only [Option.map_some'] at h
  have h2 := Option.some.inj h
  simpa [Prod.ext_iff] using h2

/-- The matcher never reads the `min_confidence` field: one loop step is
unchanged when it is replaced. -/
theorem findStep_minconf (e : ExpectedComponent) (c : ℚ) (m : List ℕ) :
    findStep { e with minConfidence := c } m = findStep e m := rfl

theorem findMatchingObject_minconf (e : ExpectedComponent) (c : ℚ)
    (ds : List Detection) (m : List ℕ) :
    findMatchingObject { e with minConfidence := c } ds m =
      findMatchingObject e ds m := rfl

theorem matchComponentsAux_minconf (ds : List Detection) :
    ∀ (es1 es2 : List ExpectedComponent) (m : List ℕ),
      List.Forall₂ sameExceptMinConf es1 es2 →
      matchComponentsAux ds es1 m = matchComponentsAux ds es2 m := by
  intro es1
  induction es1 with
  | nil =>
    intro es2 m h
    cases h
    rfl
  | cons e1 rest1 ih =>
    intro es2 m h
    cases h with
    | cons he hrest =>
      rename_i e2 rest2
      rw [matchComponentsAux, matchComponentsAux]
      have hfind : findMatchingObject e1 ds m = findMatchingObject e2 ds m := by
        rw [he]
        exact (findMatchingObject_minconf e1 e2.minConfidence ds m).symm
      rw [← hfind]
      cases hf : findMatchingObject e1 ds m with
      | some di =>
        obtain ⟨d, idx⟩ := di
        dsimp only
        rw [ih rest2 (idx :: m) hrest, he]
      | none =>
        dsimp only
        rw [ih rest2 m hrest, he]

/-! Helper lemmas about the aggregator. -/

theorem analyzeResults_totalCount (rs : List ComponentMatchResult)
    (es : List ExpectedComponent) :
    (analyzeResults rs es).totalCount = es.length := by
  unfold analyzeResults
  dsimp only
  split_ifs <;> rfl

theorem analyzeResults_fail_of_missing_critical
    (rs : List ComponentMatchResult) (es : List ExpectedComponent)
    (r : ComponentMatchResult) (hr : r ∈ rs) (hmiss : r.status = .MISSING)
    (hcrit : r.critical = true) : (analyzeResults rs es).status = .FAIL := by
  unfold analyzeResults
  dsimp only
  have hne : (rs.filter (fun r => r.status = .MISSING ∧ r.critical)).map
      (fun r => r.name) ≠ [] := by
    have hmem : r ∈ rs.filter (fun r => r.status = .MISSING ∧ r.critical) :=
      List.mem_filter.mpr ⟨hr, by simp [hmiss, hcrit]⟩
    intro hcontra
    rw [List.map_eq_nil] at hcontra
    rw [hcontra] at hmem
    exact absurd hmem (List.not_mem_nil r)
  rw [if_pos hne]

theorem processMviResult_status_nonempty (e : ExpectedComponent)
    (rest : List ExpectedComponent) (ds : List Detection) :
    (processMviResult (e :: rest) ds).status =
      (analyzeResults (matchComponents (e :: rest) ds) (e :: rest)).status := by
  unfold processMviResult
  rw [if_neg (by simp)]

/-! The claims. -/

/-- C3: whenever the total count of a `process_mvi_result` verdict is zero
(equivalently, the expected-component list for the product is empty), the
returned status is ERROR with reason "No component definitions found for
this product", and in particular it is neither PASS nor FAIL. -/
theorem claim3_empty_config_error (es : List ExpectedComponent)
    (ds : List Detection) (h : (processMviResult es ds).total = 0) :
    (processMviResult es ds).status = .ERROR ∧
      (processMviResult es ds).reason =
        "No component definitions found for this product" ∧
      (processMviResult es ds).status ≠ .PASS ∧
      (processMviResult es ds).status ≠ .FAIL := by
  cases es with
  | nil => exact ⟨rfl, rfl, by simp [processMviResult], by simp [processMviResult]⟩
  | cons e rest =>
    exfalso
    have htot : (processMviResult (e :: rest) ds).total = (e :: rest).length := by
      unfold processMviResult
      rw [if_neg (by simp)]
      exact analyzeResults_totalCount _ _
    rw [htot] at h
    simp at h

theorem claim3_empty_config_error_witness :
    (processMviResult [] [⟨"pig", 9 / 10, ⟨0, 0, 10, 10⟩⟩]).status = .ERROR ∧
      (processMviResult [] [⟨"pig", 9 / 10, ⟨0, 0, 10, 10⟩⟩]).reason =
        "No component definitions found for this product" ∧
      (processMviResult [] [⟨"pig", 9 / 10, ⟨0, 0, 10, 10⟩⟩]).status ≠ .PASS ∧
      (processMviResult [] [⟨"pig", 9 / 10, ⟨0, 0, 10, 10⟩⟩]).status ≠ .FAIL :=
  claim3_empty_config_error [] [⟨"pig", 9 / 10, ⟨0, 0, 10, 10⟩⟩] rfl

/-- C5: if any expected component marked critical ends up MISSING in the
match result list, the aggregated verdict of `process_mvi_result` is FAIL,
regardless of the other components. -/
theorem claim5_critical_dominance (es : List ExpectedComponent)
    (ds : List Detection) (i : ℕ) (hi : i < es.length)
    (hcrit : (es.get ⟨i, hi⟩).critical = true)
    (hmiss : ∀ hi2 : i < (matchComponents es ds).length,
      ((matchComponents es ds).get ⟨i, hi2⟩).status = .MISSING) :
    (processMviResult es ds).status = .FAIL := by
  have hi2 : i < (matchComponents es ds).length := by
    rw [matchComponents_length]
    exact hi
  have hrmem : (matchComponents es ds).get ⟨i, hi2⟩ ∈ matchComponents es ds :=
    List.get_mem _ _ _
  have hrcrit : ((matchComponents es ds).get ⟨i, hi2⟩).critical = true := by
    rw [(matchComponents_get_fields es ds i hi2 hi).2.2.2.2]
    exact hcrit
  cases es with
  | nil => exact absurd hi (by simp)
  | cons e rest =>
    rw [processMviResult_status_nonempty]
    exact analyzeResults_fail_of_missing_critical _ _ _ hrmem (hmiss hi2) hrcrit

theorem claim5_critical_dominance_witness :
    (processMviResult [⟨1, "pig", none, ⟨0, 0, 10, 10⟩, none, 8 / 10, true⟩]
        []).status = .FAIL :=
  claim5_critical_dominance
    [⟨1, "pig", none, ⟨0, 0, 10, 10⟩, none, 8 / 10, true⟩] [] 0
    (by decide) rfl (fun _ => rfl)

/-- C7: `_match_components` returns exactly one result per expected
component, in the same order: the list lengths agree and the i-th result
carries the identity (id, name, position, roi, critical flag) of the i-th
expected component. -/
theorem claim7_one_result_per_component (es : List ExpectedComponent)
    (ds : List Detection) :
    (matchComponents es ds).length = es.length ∧
      ∀ (i : ℕ) (hi2 : i < (matchComponents es ds).length) (hi : i < es.length),
        ((matchComponents es ds).get ⟨i, hi2⟩).componentDefId =
            (es.get ⟨i, hi⟩).id ∧
          ((matchComponents es ds).get ⟨i, hi2⟩).name = (es.get ⟨i, hi⟩).name ∧
          ((matchComponents es ds).get ⟨i, hi2⟩).position =
            ((es.get ⟨i, hi⟩).position).getD "" ∧
          ((matchComponents es ds).get ⟨i, hi2⟩).expectedBbox =
            (es.get ⟨i, hi⟩).roi ∧
          ((matchComponents es ds).get ⟨i, hi2⟩).critical =
            (es.get ⟨i, hi⟩).critical :=
  ⟨matchComponents_length es ds,
   fun i hi2 hi => matchComponents_get_fields es ds i hi2 hi⟩

theorem claim7_one_result_per_component_witness :
    (matchComponents [⟨1, "pig", none, ⟨0, 0, 10, 10⟩, none, 8 / 10, true⟩]
        []).length = 1 ∧
      ((matchComponents [⟨1, "pig", none, ⟨0, 0, 10, 10⟩, none, 8 / 10, true⟩]
          []).get ⟨0, by decide⟩).componentDefId = 1 :=
  ⟨(claim7_one_result_per_component
      [⟨1, "pig", none, ⟨0, 0, 10, 10⟩, none, 8 / 10, true⟩] []).1,
   ((claim7_one_result_per_component
      [⟨1, "pig", none, ⟨0, 0, 10, 10⟩, none, 8 / 10, true⟩] []).2 0
        (by decide) (by decide)).1⟩

/-- C4: over one call of `_match_components`, the consumed detection
indices are pairwise distinct (no detection index backs two different
results), and an index is consumed exactly for the FOUND results. -/
theorem claim4_no_double_consumption (es : List ExpectedComponent)
    (ds : List Detection) :
    ((matchComponentsAux ds es []).filterMap Prod.snd).Nodup ∧
      ∀ p ∈ matchComponentsAux ds es [], (p.1.status = .FOUND ↔ p.2.isSome) :=
  ⟨(matchComponentsAux_indices ds es []).2,
   fun p hp => (matchComponentsAux_mem ds es [] p hp).1⟩

theorem claim4_no_double_consumption_witness :
    ((matchComponentsAux []
        [⟨1, "pig", none, ⟨0, 0, 10, 10⟩, none, 8 / 10, true⟩] []).filterMap
      Prod.snd).Nodup ∧
      ((⟨⟨1, "pig", "", .MISSING, 0, ⟨0, 0, 10, 10⟩, none, true⟩, none⟩ :
          ComponentMatchResult × Option ℕ).1.status = .FOUND ↔
        (⟨⟨1, "pig", "", .MISSING, 0, ⟨0, 0, 10, 10⟩, none, true⟩, none⟩ :
          ComponentMatchResult × Option ℕ).2.isSome) :=
  ⟨(claim4_no_double_consumption
      [⟨1, "pig", none, ⟨0, 0, 10, 10⟩, none, 8 / 10, true⟩] []).1,
   (claim4_no_double_consumption
      [⟨1, "pig", none, ⟨0, 0, 10, 10⟩, none, 8 / 10, true⟩] []).2 _
      (List.Mem.head _)⟩

/-- C6: in every result list of `_match_components`, a result is FOUND
exactly when its detected bbox is non-null; a FOUND result copies the
matched detection's bbox and confidence, and a MISSING result has
confidence 0.0 and a null detected bbox. -/
theorem claim6_found_invariant (es : List ExpectedComponent)
    (ds : List Detection) (r : ComponentMatchResult)
    (hr : r ∈ matchComponents es ds) :
    (r.status = .FOUND ↔ r.detectedBbox ≠ none) ∧
      (r.status = .FOUND →
        ∃ d ∈ ds, r.detectedBbox = some d.bbox ∧ r.confidence = d.confidence) ∧
      (r.status = .MISSING → r.confidence = 0 ∧ r.detectedBbox = none) := by
  obtain ⟨p, hp, rfl⟩ := List.mem_map.mp hr
  obtain ⟨h1, h2, h3⟩ := matchComponentsAux_mem ds es [] p hp
  refine ⟨?_, h2, h3⟩
  constructor
  · intro hf
    obtain ⟨d, hd, hbb, -⟩ := h2 hf
    rw [hbb]
    simp
  · intro hbb
    cases hstat : p.1.status with
    | FOUND => rfl
    | MISSING =>
      obtain ⟨-, hnone⟩ := h3 hstat
      exact absurd hnone hbb

theorem claim6_found_invariant_witness :
    ((⟨1, "pig", "", .FOUND, 9 / 10, ⟨0, 0, 10, 10⟩, some ⟨0, 0, 10, 10⟩, true⟩ :
        ComponentMatchResult).status = .FOUND ↔
      (⟨1, "pig", "", .FOUND, 9 / 10, ⟨0, 0, 10, 10⟩, some ⟨0, 0, 10, 10⟩, true⟩ :
        ComponentMatchResult).detectedBbox ≠ none) :=
  (claim6_found_invariant
    [⟨1, "pig", none, ⟨0, 0, 10, 10⟩, none, 8 / 10, true⟩]
    [⟨"pig", 9 / 10, ⟨0, 0, 10, 10⟩⟩] _
    (by
      have hev : matchComponents
          [⟨1, "pig", none, ⟨0, 0, 10, 10⟩, none, 8 / 10, true⟩]
          [⟨"pig", 9 / 10, ⟨0, 0, 10, 10⟩⟩] =
          [⟨1, "pig", "", .FOUND, 9 / 10, ⟨0, 0, 10, 10⟩,
            some ⟨0, 0, 10, 10⟩, true⟩] := by
        norm_num [matchComponents, matchComponentsAux, findMatchingObject,
          findFold, List.enum, List.enumFrom, findStep, calculateIou,
          calculateCenter, distSq, Score.gtB, minIou, max_def, min_def,
          (by decide : classNamesMatch "pig" "pig" = true)]
      rw [hev]
      exact List.Mem.head _)).1

/-- C9: the matcher's output is independent of the `min_confidence` values
of the expected components: two expected lists that agree except on
`min_confidence` produce identical result lists for any detections. -/
theorem claim9_min_confidence_unused (es1 es2 : List ExpectedComponent)
    (ds : List Detection) (h : List.Forall₂ sameExceptMinConf es1 es2) :
    matchComponents es1 ds = matchComponents es2 ds := by
  unfold matchComponents
  rw [matchComponentsAux_minconf ds es1 es2 [] h]

theorem claim9_min_confidence_unused_witness :
    matchComponents [⟨1, "pig", none, ⟨0, 0, 10, 10⟩, none, 8 / 10, true⟩]
        [⟨"pig", 9 / 10, ⟨0, 0, 10, 10⟩⟩] =
      matchComponents [⟨1, "pig", none, ⟨0, 0, 10, 10⟩, none, 1 / 10, true⟩]
        [⟨"pig", 9 / 10, ⟨0, 0, 10, 10⟩⟩] :=
  claim9_min_confidence_unused _ _ _
    (List.Forall₂.cons rfl List.Forall₂.nil)

/-- C10: when an expected-component record has no `tolerance` entry,
`_find_matching_object` behaves exactly as if the tolerance were 50
pixels (`expected.get("tolerance", 50)`). -/
theorem claim10_default_tolerance (e : ExpectedComponent)
    (ds : List Detection) (m : List ℕ) (h : e.tolerance = none) :
    findMatchingObject e ds m =
      findMatchingObject { e with tolerance := some 50 } ds m := by
  have hstep : findStep e m = findStep { e with tolerance := some 50 } m := by
    funext st p
    unfold findStep
    rw [h]
    rfl
  unfold findMatchingObject findFold
  rw [hstep]

theorem claim10_default_tolerance_witness :
    findMatchingObject ⟨1, "pig", none, ⟨0, 0, 10, 10⟩, none, 8 / 10, true⟩
        [⟨"pig", 9 / 10, ⟨0, 0, 10, 10⟩⟩] [] =
      findMatchingObject ⟨1, "pig", none, ⟨0, 0, 10, 10⟩, some 50, 8 / 10, true⟩
        [⟨"pig", 9 / 10, ⟨0, 0, 10, 10⟩⟩] [] :=
  claim10_default_tolerance _ _ _ rfl

/-- C8 counterexample: on a degenerate rectangle (width = height = 0),
`_calculate_iou` applied to the rectangle and itself returns 0.0, not 1.0,
because the empty-intersection early return fires; so "iou(a, a) == 1.0
for every rectangle a" is false as stated. -/
theorem claim8_iou_counterexample :
    ¬ (calculateIou ⟨0, 0, 0, 0⟩ ⟨0, 0, 0, 0⟩ = 1) := by
  norm_num [calculateIou, max_def, min_def]

/-- C8 amended: `iou(a, a) = 1.0` for every non-degenerate rectangle
(positive width and height); and for every pair in which either rectangle
is degenerate (`width <= 0` or `height <= 0`), or whose rectangles are
disjoint, `iou` returns 0.0 (it is a total function, so it never
raises). -/
theorem claim8_iou_amended :
    (∀ a : Bbox, 0 < a.width → 0 < a.height → calculateIou a a = 1) ∧
      (∀ a b : Bbox,
        a.width ≤ 0 ∨ a.height ≤ 0 ∨ b.width ≤ 0 ∨ b.height ≤ 0 →
        calculateIou a b = 0) ∧
      (∀ a b : Bbox,
        a.x + a.width ≤ b.x ∨ b.x + b.width ≤ a.x ∨
          a.y + a.height ≤ b.y ∨ b.y + b.height ≤ a.y →
        calculateIou a b = 0) := by
  refine ⟨?_, ?_, ?_⟩
  · intro a hw hh
    unfold calculateIou
    dsimp only
    have hc1 : ¬ (min (a.x + a.width) (a.x + a.width) ≤ max a.x a.x ∨
        min (a.y + a.height) (a.y + a.height) ≤ max a.y a.y) := by
      simp only [min_self, max_self]
      push_neg
      constructor <;> linarith
    rw [if_neg hc1]
    simp only [min_self, max_self]
    have h1 : a.x + a.width - a.x = a.width := by ring
    have h2 : a.y + a.height - a.y = a.height := by ring
    rw [h1, h2]
    have h3 : a.width * a.height + a.width * a.height -
        a.width * a.height = a.width * a.height := by ring
    rw [h3, if_pos (mul_pos hw hh)]
    exact div_self (ne_of_gt (mul_pos hw hh))
  · intro a b hdeg
    unfold calculateIou
    dsimp only
    have hcond : min (a.x + a.width) (b.x + b.width) ≤ max a.x b.x ∨
        min (a.y + a.height) (b.y + b.height) ≤ max a.y b.y := by
      rcases hdeg with h | h | h | h
      · exact Or.inl (le_trans (min_le_left _ _)
          (le_trans (by linarith) (le_max_left _ _)))
      · exact Or.inr (le_trans (min_le_left _ _)
          (le_trans (by linarith) (le_max_left _ _)))
      · exact Or.inl (le_trans (min_le_right _ _)
          (le_trans (by linarith) (le_max_right _ _)))
      · exact Or.inr (le_trans (min_le_right _ _)
          (le_trans (by linarith) (le_max_right _ _)))
    rw [if_pos hcond]
  · intro a b hdisj
    unfold calculateIou
    dsimp only
    have hcond : min (a.x + a.width) (b.x + b.width) ≤ max a.x b.x ∨
        min (a.y + a.height) (b.y + b.height) ≤ max a.y b.y := by
      rcases hdisj with h | h | h | h
      · exact Or.inl (le_trans (min_le_left _ _)
          (le_trans h (le_max_right _ _)))
      · exact Or.inl (le_trans (min_le_right _ _)
          (le_trans h (le_max_left _ _)))
      · exact Or.inr (le_trans (min_le_left _ _)
          (le_trans h (le_max_right _ _)))
      · exact Or.inr (le_trans (min_le_right _ _)
          (le_trans h (le_max_left _ _)))
    rw [if_pos hcond]

theorem claim8_iou_amended_witness :
    calculateIou ⟨0, 0, 2, 2⟩ ⟨0, 0, 2, 2⟩ = 1 ∧
      calculateIou ⟨0, 0, 0, 5⟩ ⟨0, 0, 2, 2⟩ = 0 ∧
      calculateIou ⟨0, 0, 2, 2⟩ ⟨10, 0, 2, 2⟩ = 0 :=
  ⟨claim8_iou_amended.1 ⟨0, 0, 2, 2⟩ (by norm_num) (by norm_num),
   claim8_iou_amended.2.1 ⟨0, 0, 0, 5⟩ ⟨0, 0, 2, 2⟩ (Or.inl (by norm_num)),
   claim8_iou_amended.2.2 ⟨0, 0, 2, 2⟩ ⟨10, 0, 2, 2⟩ (Or.inl (by norm_num))⟩

/-- C1 counterexample: detection 0 is the only candidate whose IoU with
the expected ROI clears the 0.05 threshold (IoU 1/19), yet
`_find_matching_object` selects detection 1 (IoU 1/100, below threshold)
because the center-distance fallback score `1/(distance+1)` of
detection 1 is compared against — and here beats — detection 0's IoU in
the shared `best_score` variable.  So the best-IoU candidate is not
selected, and the fallback is not reserved for the no-IoU-match case. -/
theorem claim1_best_iou_counterexample :
    minIou < calculateIou (⟨0, 0, 10, 10⟩ : Bbox) ⟨0, 9, 10, 10⟩ ∧
      calculateIou (⟨0, 0, 10, 10⟩ : Bbox) ⟨5, 5, 1, 1⟩ ≤ minIou ∧
      findMatchingObject ⟨1, "pig", none, ⟨0, 0, 10, 10⟩, none, 8 / 10, false⟩
          [⟨"pig", 9 / 10, ⟨0, 9, 10, 10⟩⟩, ⟨"pig", 9 / 10, ⟨5, 5, 1, 1⟩⟩] [] =
        some (⟨"pig", 9 / 10, ⟨5, 5, 1, 1⟩⟩, 1) := by
  refine ⟨?_, ?_, ?_⟩
  · norm_num [calculateIou, minIou, max_def, min_def]
  · norm_num [calculateIou, minIou, max_def, min_def]
  · norm_num [findMatchingObject, findFold, List.enum, List.enumFrom, findStep,
      calculateIou, calculateCenter, distSq, Score.gtB, minIou, max_def, min_def,
      (by decide : classNamesMatch "pig" "pig" = true)]

/-- C1 amended: if at least one unconsumed, class-matching candidate has
IoU with the expected ROI strictly greater than 0.05, the matcher does
return a match, and the final `best_score` is at least the IoU of every
such candidate; but IoU scores and the fallback proximity scores
`1/(distance+1)` of below-threshold candidates compete in the same
`best_score` variable, so the selected match maximizes that mixed score
and need not be the candidate with the highest IoU (see the
counterexample). -/
theorem claim1_best_iou_amended (e : ExpectedComponent) (ds : List Detection)
    (matched : List ℕ)
    (h : ∃ i d, (i, d) ∈ ds.enum ∧ i ∉ matched ∧
        classNamesMatch e.name d.className = true ∧
        minIou < calculateIou e.roi d.bbox) :
    (findMatchingObject e ds matched).isSome = true ∧
      ∀ j d2, (j, d2) ∈ ds.enum → j ∉ matched →
        classNamesMatch e.name d2.className = true →
        minIou < calculateIou e.roi d2.bbox →
        Score.gtB (.iouScore (calculateIou e.roi d2.bbox))
          (findFold e ds matched).2 = false := by
  have hcand : ∀ d2 : Detection, classNamesMatch e.name d2.className = true →
      minIou < calculateIou e.roi d2.bbox →
      candidateScore e d2 = some (.iouScore (calculateIou e.roi d2.bbox)) := by
    intro d2 hclass hiou
    unfold candidateScore
    rw [if_neg (by simp [hclass])]
    dsimp only
    rw [if_pos hiou]
  constructor
  · obtain ⟨i, d, hmem, hnm, hclass, hiou⟩ := h
    have hne := (findFold_candidate e ds matched hmem hnm
      (hcand d hclass hiou)).2
    unfold findMatchingObject
    exact Option.ne_none_iff_isSome.mp hne
  · intro j d2 hmem hnm hclass hiou
    have hle := (findFold_candidate e ds matched hmem hnm
      (hcand d2 hclass hiou)).1
    have hwf : (findFold e ds matched).2.wfo := (findFold_inv e ds matched).1
    by_contra hne
    rw [Bool.not_eq_false] at hne
    have hswf : (Score.iouScore (calculateIou e.roi d2.bbox)).wfo := trivial
    exact absurd ((gtB_iff_val hswf hwf).mp hne) (not_lt.mpr hle)

theorem claim1_best_iou_amended_witness :
    (findMatchingObject ⟨1, "pig", none, ⟨0, 0, 10, 10⟩, none, 8 / 10, false⟩
        [⟨"pig", 9 / 10, ⟨0, 9, 10, 10⟩⟩, ⟨"pig", 9 / 10, ⟨5, 5, 1, 1⟩⟩]
        []).isSome = true :=
  (claim1_best_iou_amended _ _ _
    ⟨0, ⟨"pig", 9 / 10, ⟨0, 9, 10, 10⟩⟩, by simp [List.enum, List.enumFrom],
      by simp, by decide,
      by norm_num [calculateIou, minIou, max_def, min_def]⟩).1

/-! Agreement of the raw-dict model with the typed model on well-formed
detections, certifying that the raw model only adds the `KeyError`
behaviour. -/

theorem exceptBind_ok {α β : Type} (a : α) (f : α → Except String β) :
    (Except.ok a : Except String α) >>= f = f a := rfl

theorem exceptBind_error {α β : Type} (msg : String)
    (f : α → Except String β) :
    (Except.error msg : Except String α) >>= f = Except.error msg := rfl

theorem rawFindStep_toRaw (e : ExpectedComponent) (m : List ℕ)
    (st : Option (Detection × ℕ) × Score) (p : ℕ × Detection) :
    rawFindStep e m st (p.1, toRawDetection p.2) =
      Except.ok (findStep e m st p) := by
  unfold rawFindStep findStep toRawDetection dictGet getRawBbox
  by_cases h1 : p.1 ∈ m
  · simp [h1]
  · by_cases h2 : classNamesMatch e.name p.2.className
    · by_cases h3 : minIou < calculateIou e.roi p.2.bbox
      · simp [h1, h2, h3, dictGet, exceptBind_ok]
        try rfl
      · by_cases h4 : 0 ≤ (e.tolerance).getD 50 ∧
            distSq (calculateCenter e.roi) (calculateCenter p.2.bbox) ≤
              ((e.tolerance).getD 50) ^ 2
        · simp [h1, h2, h3, h4, dictGet, exceptBind_ok]
          try rfl
        · simp [h1, h2, h3, h4, dictGet, exceptBind_ok]
          try rfl
    · simp [h1, h2, dictGet, exceptBind_ok]
      try rfl

theorem rawFold_toRaw (e : ExpectedComponent) (m : List ℕ)
    (l : List (ℕ × Detection)) (st : Option (Detection × ℕ) × Score) :
    List.foldlM (rawFindStep e m) st (l.map (Prod.map id toRawDetection)) =
      Except.ok (l.foldl (findStep e m) st) := by
  induction l generalizing st with
  | nil => rfl
  | cons p rest ih =>
    rw [List.map_cons, List.foldlM_cons]
    have hhd : rawFindStep e m st (Prod.map id toRawDetection p) =
        Except.ok (findStep e m st p) := rawFindStep_toRaw e m st p
    rw [hhd]
    simpa using ih (findStep e m st p)

theorem rawFindMatchingObject_toRaw (e : ExpectedComponent)
    (ds : List Detection) (m : List ℕ) :
    rawFindMatchingObject e (ds.map toRawDetection) m =
      Except.ok (findMatchingObject e ds m) := by
  unfold rawFindMatchingObject findMatchingObject findFold
  rw [List.enum_map, rawFold_toRaw]
  rfl

theorem rawMatchComponentsAux_toRaw (ds : List Detection) :
    ∀ (es : List ExpectedComponent) (m : List ℕ),
      rawMatchComponentsAux (ds.map toRawDetection) es m =
        Except.ok ((matchComponentsAux ds es m).map Prod.fst) := by
  intro es
  induction es with
  | nil => intro m; rfl
  | cons e rest ih =>
    intro m
    rw [rawMatchComponentsAux, matchComponentsAux, rawFindMatchingObject_toRaw]
    cases hf : findMatchingObject e ds m with
    | some di =>
      obtain ⟨d, idx⟩ := di
      simp [ih, exceptBind_ok]
    | none => simp [ih, exceptBind_ok]

/-- On detection dicts with all required keys present and numeric, the raw
model returns exactly the typed `_match_components` result list. -/
theorem rawMatchComponents_toRaw (es : List ExpectedComponent)
    (ds : List Detection) :
    rawMatchComponents es (ds.map toRawDetection) =
      Except.ok (matchComponents es ds) :=
  rawMatchComponentsAux_toRaw ds es []

/-- C2 counterexample: on a detection dict lacking the `class` key,
`_match_components` does not skip the entry and produce a result per
expected component — it raises `KeyError: 'class'` (the raw model returns
an error, not a result list). -/
theorem claim2_malformed_counterexample :
    rawMatchComponents [⟨1, "pig", none, ⟨0, 0, 10, 10⟩, none, 8 / 10, true⟩]
        [⟨none, some (9 / 10), some ⟨some 0, some 0, some 10, some 10⟩⟩] =
      Except.error "KeyError: class" := rfl

/-- C2 amended: `_match_components` has no per-entry error handling: as
soon as the matcher touches a detection dict lacking the `class` key (here
the first detection, touched while matching the first expected component),
the `KeyError` propagates out of the call and no result list is
produced. -/
theorem claim2_malformed_amended (e : ExpectedComponent)
    (es : List ExpectedComponent) (rd : RawDetection)
    (rds : List RawDetection) (h : rd.className? = none) :
    rawMatchComponents (e :: es) (rd :: rds) =
      Except.error "KeyError: class" := by
  have hstep : rawFindStep e [] (none, Score.iouScore 0) (0, rd) =
      Except.error "KeyError: class" := by
    unfold rawFindStep
    simp [dictGet, h, exceptBind_error]
  have hfind : rawFindMatchingObject e (rd :: rds) [] =
      Except.error "KeyError: class" := by
    unfold rawFindMatchingObject
    rw [show List.enum (rd :: rds) = (0, rd) :: List.enumFrom 1 rds from rfl,
      List.foldlM_cons, hstep]
    rfl
  unfold rawMatchComponents rawMatchComponentsAux
  rw [hfind]
  rfl

theorem claim2_malformed_amended_witness :
    rawMatchComponents
        [⟨1, "pig", none, ⟨0, 0, 10, 10⟩, none, 8 / 10, true⟩,
         ⟨2, "monk", none, ⟨20, 0, 10, 10⟩, none, 8 / 10, false⟩]
        [⟨none, none, none⟩,
         ⟨some "pig", some (9 / 10), some ⟨some 0, some 0, some 10, some 10⟩⟩] =
      Except.error "KeyError: class" :=
  claim2_malformed_amended _ _ _ _ rfl

end MVI
